import Mathlib

/-!
# Verification of a Python DHCP server core

A shallow embedding of the repository's core modules:

* `dhcp_packet.py` — `DHCPPacket.parse`, `DHCPPacket._parse_options`,
  `DHCPPacket.build`, `DHCPPacket.get_message_type`, `get_client_mac`,
  `get_requested_ip`;
* `ip_manager.py` — `Subnet` (normalization, allocation, release, lookup)
  and `IPManager` (subnet selection and the global reservation table);
* `lease_manager.py` — the lease table with creation and expiry cleanup;
* `dhcp_server.py` — the DISCOVER / REQUEST handlers and reply builders.

Modelling conventions:

* Python `bytes` values are `List Nat` with entries below 256; multi-byte
  integers are serialized in network byte order exactly as `struct.pack`
  with format `!BBBB I HH 4s 4s 4s 4s` does.
* Dotted-quad IPv4 strings are represented by their 32-bit numeric value.
  `socket.inet_aton` / `inet_ntoa` form a bijection between canonical
  dotted-quad strings and 4-byte strings, and every address string the
  program manipulates is canonical (produced by `inet_ntoa` or by the
  `ipaddress` module), so string equality coincides with numeric equality.
* Python `dict`s are association lists in insertion order with unique keys;
  `dict[k] = v` updates in place when the key exists and appends otherwise,
  which is what `ainsert` below does.
* MAC address strings are lists of ASCII codes (`MacStr`), so that the
  character rewriting done by `_normalize_mac` can be modelled faithfully.
-/

/-- Python `bytes` are modelled as lists of naturals below 256. -/
abbrev Byte := Nat

/-- MAC address strings, as lists of ASCII character codes. -/
abbrev MacStr := List Nat

/-- Association-list lookup, the model of Python `d.get(k)` / `k in d`. -/
def alookup {α β : Type} [DecidableEq α] : List (α × β) → α → Option β
  | [], _ => none
  | (k, v) :: t, a => if k = a then some v else alookup t a

/-- Association-list assignment, the model of Python `d[k] = v`: an existing
key keeps its position and gets the new value, a fresh key is appended. -/
def ainsert {α β : Type} [DecidableEq α] : List (α × β) → α → β → List (α × β)
  | [], k, v => [(k, v)]
  | (k', v') :: t, k, v =>
    if k' = k then (k', v) :: t else (k', v') :: ainsert t k v

/-- Association-list removal, the model of Python `d.pop(k)`. -/
def aerase {α β : Type} [DecidableEq α] : List (α × β) → α → List (α × β)
  | [], _ => []
  | (k', v') :: t, k => if k' = k then t else (k', v') :: aerase t k

/-- The values of an association list, the model of Python `d.values()`. -/
def avalues {α β : Type} (l : List (α × β)) : List β := l.map Prod.snd

/-- The keys of an association list, the model of Python `d.keys()`. -/
def akeys {α β : Type} (l : List (α × β)) : List α := l.map Prod.fst

/-- Serialize `n` into `w` bytes, most significant first (network order). -/
def toBytesBE : Nat → Nat → List Nat
  | 0, _ => []
  | w + 1, n => toBytesBE w (n / 256) ++ [n % 256]

/-- Read a big-endian byte sequence back into a natural number. -/
def fromBytesBE (l : List Nat) : Nat := l.foldl (fun acc b => acc * 256 + b) 0

/-- `data[off : off + len]`, the Python slice used throughout the codec. -/
def pySlice (data : List Nat) (off len : Nat) : List Nat := (data.drop off).take len

/-! ## `dhcp_packet.py` — the packet codec -/

/-- The 4-byte DHCP magic cookie `63 82 53 63`. -/
def MAGIC_COOKIE : List Nat := [0x63, 0x82, 0x53, 0x63]

/-- `DHCPPacket`: the message structure of `dhcp_packet.py`.  Header fields
are naturals, the four address fields carry the 32-bit value of the
dotted-quad string, `chaddr`/`sname`/`file` are byte strings, and `options`
is the options dict (insertion-ordered association list, unique keys). -/
structure DHCPPacket where
  op : Nat
  htype : Nat
  hlen : Nat
  hops : Nat
  xid : Nat
  secs : Nat
  flags : Nat
  ciaddr : Nat
  yiaddr : Nat
  siaddr : Nat
  giaddr : Nat
  chaddr : List Nat
  sname : List Nat
  file : List Nat
  options : List (Nat × List Nat)
deriving DecidableEq, Repr

/-- `DHCPPacket.__init__`: the field defaults. -/
def DHCPPacket.init : DHCPPacket :=
  { op := 0, htype := 1, hlen := 6, hops := 0, xid := 0, secs := 0, flags := 0
    ciaddr := 0, yiaddr := 0, siaddr := 0, giaddr := 0
    chaddr := [], sname := [], file := [], options := [] }

/-- The loop body of `DHCPPacket._parse_options`.  The fuel argument only
bounds the iteration count; since every pass consumes at least one byte of
`options_data`, starting the fuel at the data's length reproduces the
Python `while i < len(options_data)` loop exactly. -/
def parseOptionsGo : Nat → List Nat → List (Nat × List Nat) → List (Nat × List Nat)
  | 0, _, options => options
  | _ + 1, [], options => options
  | fuel + 1, code :: rest, options =>
    -- End option (code 255) stops the scan
    if code = 255 then options
    else if code = 0 then parseOptionsGo fuel rest options  -- pad, no length byte
    else
      match rest with
      | [] => options  -- `i + 1 >= len(options_data)`: length byte missing
      | len :: rest2 =>
        if rest2.length < len then options  -- `i + 2 + option_length > len(...)`
        else parseOptionsGo fuel (rest2.drop len) (ainsert options code (rest2.take len))

/-- `DHCPPacket._parse_options(options_data)`. -/
def parse_options (options_data : List Nat) : List (Nat × List Nat) :=
  parseOptionsGo options_data.length options_data []

/-- `DHCPPacket.parse(data)`: `none` models the `ValueError` raised for
inputs shorter than 236 bytes.  Field offsets follow the
`!BBBB I HH 4s 4s 4s 4s 16s 64s 128s` unpack of the first 236 bytes, and
the options block is parsed only behind a present, matching magic cookie. -/
def DHCPPacket.parse (data : List Nat) : Option DHCPPacket :=
  if data.length < 236 then none
  else
    let hlen := fromBytesBE (pySlice data 2 1)
    some
      { op := fromBytesBE (pySlice data 0 1)
        htype := fromBytesBE (pySlice data 1 1)
        hlen := hlen
        hops := fromBytesBE (pySlice data 3 1)
        xid := fromBytesBE (pySlice data 4 4)
        secs := fromBytesBE (pySlice data 8 2)
        flags := fromBytesBE (pySlice data 10 2)
        ciaddr := fromBytesBE (pySlice data 12 4)
        yiaddr := fromBytesBE (pySlice data 16 4)
        siaddr := fromBytesBE (pySlice data 20 4)
        giaddr := fromBytesBE (pySlice data 24 4)
        chaddr := (pySlice data 28 16).take hlen  -- `header[11][:packet.hlen]`
        sname := pySlice data 44 64
        file := pySlice data 108 128
        options :=
          if 236 < data.length then
            -- options_data = data[236:]
            if 4 ≤ (data.drop 236).length then
              if (data.drop 236).take 4 = MAGIC_COOKIE then
                parse_options ((data.drop 236).drop 4)
              else []  -- invalid magic cookie: warn, options stay empty
            else []  -- no room for the cookie
          else [] }

/-- The options section of a built packet: each `(code, value)` pair
rendered as `bytes([code, len(value)]) + value`, in dict order. -/
def optionsWire (opts : List (Nat × List Nat)) : List Nat :=
  opts.flatMap (fun cv => cv.1 :: cv.2.length :: cv.2)

/-- `DHCPPacket.build(self)`: header pack, zero-padded fixed blocks, magic
cookie, `(code, length, value)` triples in dict order, end marker 255. -/
def DHCPPacket.build (p : DHCPPacket) : List Nat :=
  toBytesBE 1 p.op ++ toBytesBE 1 p.htype ++ toBytesBE 1 p.hlen ++ toBytesBE 1 p.hops ++
  toBytesBE 4 p.xid ++ toBytesBE 2 p.secs ++ toBytesBE 2 p.flags ++
  toBytesBE 4 p.ciaddr ++ toBytesBE 4 p.yiaddr ++ toBytesBE 4 p.siaddr ++ toBytesBE 4 p.giaddr ++
  (p.chaddr ++ List.replicate (16 - p.chaddr.length) 0) ++
  (p.sname ++ List.replicate (64 - p.sname.length) 0) ++
  (p.file ++ List.replicate (128 - p.file.length) 0) ++
  MAGIC_COOKIE ++
  optionsWire p.options ++
  [255]

/-- `DHCPPacket.get_message_type(self)`: `.ok none` models the Python
`return None` when option 53 is absent, `.ok (some b)` the first value byte,
and `.error ()` the `IndexError` raised by `[0]` on an empty value. -/
def DHCPPacket.get_message_type (p : DHCPPacket) : Except Unit (Option Nat) :=
  match alookup p.options 53 with
  | some (b :: _) => Except.ok (some b)
  | some [] => Except.error ()
  | none => Except.ok none

/-- Propositional equality on `Except` results is decidable (used to
evaluate the embedded handlers on concrete packets). -/
instance {ε α : Type} [DecidableEq ε] [DecidableEq α] : DecidableEq (Except ε α) :=
  fun a b =>
    match a, b with
    | Except.error e, Except.error e' =>
      if h : e = e' then isTrue (by rw [h]) else isFalse (by intro hh; cases hh; exact h rfl)
    | Except.ok x, Except.ok y =>
      if h : x = y then isTrue (by rw [h]) else isFalse (by intro hh; cases hh; exact h rfl)
    | Except.error _, Except.ok _ => isFalse (by intro hh; cases hh)
    | Except.ok _, Except.error _ => isFalse (by intro hh; cases hh)

/-- One byte rendered by `f'{b:02x}'` (lowercase hex, two digits for any
byte value below 256). -/
def byteToHex (b : Nat) : List Nat :=
  [if b / 16 < 10 then 48 + b / 16 else 87 + b / 16,
   if b % 16 < 10 then 48 + b % 16 else 87 + b % 16]

/-- `DHCPPacket.get_client_mac(self)`: colon-joined lowercase hex pairs. -/
def DHCPPacket.get_client_mac (p : DHCPPacket) : MacStr :=
  List.intercalate [58] (p.chaddr.map byteToHex)

/-- `DHCPPacket.get_requested_ip(self)`: `socket.inet_ntoa(options[50])`
when option 50 is present, else `None` (`.ok none`).  `inet_ntoa` accepts
exactly four bytes and raises `OSError` for a value of any other length —
and such values are wire-reachable, since `_parse_options` keeps whatever
length the length byte declares — so that path is `.error ()`. -/
def DHCPPacket.get_requested_ip (p : DHCPPacket) : Except Unit (Option Nat) :=
  match alookup p.options 50 with
  | some v =>
    if v.length = 4 then Except.ok (some (fromBytesBE v)) else Except.error ()
  | none => Except.ok none

/-! ## `ip_manager.py` — subnets and the IP manager -/

/-- `'-'` and `'.'` rewritten to `':'` (codes 45, 46, 58), the model of
`mac.replace('-', ':').replace('.', ':')` acting on one character. -/
def sepFixChar (c : Nat) : Nat := if c = 45 ∨ c = 46 then 58 else c

/-- ASCII lowercasing of one character, the model of `str.lower()`. -/
def lowerChar (c : Nat) : Nat := if 65 ≤ c ∧ c ≤ 90 then c + 32 else c

/-- The per-character effect of `_normalize_mac`'s rewriting phase. -/
def macStep (c : Nat) : Nat := lowerChar (sepFixChar c)

/-- `Subnet._normalize_mac(mac)` (textually identical in `IPManager`):
rewrite separators, lowercase, split on `':'` (58), and re-join with `':'`
when the string has exactly six parts. -/
def normalizeMac (mac : MacStr) : MacStr :=
  let mac := (mac.map sepFixChar).map lowerChar
  let parts := mac.splitOn 58
  if parts.length = 6 then List.intercalate [58] parts else mac

/-- `Subnet`: one pool plus its reservations and live allocations.
`name` is only interpolated into log strings and is omitted; the
`ipaddress.IPv4Network` is kept as its base address and prefix length.
`reservations` keys are already normalized (done in `__init__`). -/
structure Subnet where
  netAddr : Nat
  prefixLen : Nat
  subnet_mask : Nat
  gateway : Option Nat
  dns_servers : List Nat
  reservations : List (MacStr × Nat)
  pool : List Nat
  allocated : List (MacStr × Nat)
deriving DecidableEq, Repr

/-- `Subnet.has_ip(ip)`: membership of `ip` in the subnet's network, i.e.
equality of the prefix bits (the `ipaddress` containment test).  The
`except` branch for unparseable strings cannot fire on numeric input. -/
def Subnet.has_ip (s : Subnet) (ip : Nat) : Bool :=
  ip / 2 ^ (32 - s.prefixLen) = s.netAddr / 2 ^ (32 - s.prefixLen)

/-- `Subnet.is_ip_available(ip)`. -/
def Subnet.is_ip_available (s : Subnet) (ip : Nat) : Bool :=
  if ip ∈ avalues s.reservations then false
  else decide (ip ∈ s.pool ∧ ip ∉ avalues s.allocated)

/-- Step (4) of `Subnet.allocate_for_mac`: iterate over `sorted(self.pool)`
(numeric order — Python sorts by the octet tuple) and grant the first
address that is neither reserved nor currently allocated.  `mac` has
already been normalized by the caller. -/
def Subnet.allocFirstAvailable (s : Subnet) (mac : MacStr) : Option Nat × Subnet :=
  let reserved_ips := avalues s.reservations
  match (s.pool.insertionSort (· ≤ ·)).find?
      (fun ip => decide (ip ∉ reserved_ips ∧ ip ∉ avalues s.allocated)) with
  | some ip => (some ip, { s with allocated := ainsert s.allocated mac ip })
  | none => (none, s)  -- "No available IPs"

/-- `Subnet.allocate_for_mac(mac, requested_ip)`, returning the result and
the updated subnet. -/
def Subnet.allocate_for_mac (s : Subnet) (mac : MacStr) (requested_ip : Option Nat) :
    Option Nat × Subnet :=
  let mac := normalizeMac mac
  match alookup s.reservations mac with
  | some reserved_ip =>
    -- Reservation for this MAC in this subnet
    (some reserved_ip, { s with allocated := ainsert s.allocated mac reserved_ip })
  | none =>
    match alookup s.allocated mac with
    | some ip => (some ip, s)  -- already allocated
    | none =>
      match requested_ip with
      | some rip =>
        -- Honor requested IP if available and in this subnet's pool
        if rip ∈ s.pool then
          if rip ∉ avalues s.reservations ∧ rip ∉ avalues s.allocated then
            (some rip, { s with allocated := ainsert s.allocated mac rip })
          else s.allocFirstAvailable mac  -- requested IP not available
        else s.allocFirstAvailable mac
      | none => s.allocFirstAvailable mac

/-- `Subnet.release(mac)`. -/
def Subnet.release (s : Subnet) (mac : MacStr) : Bool × Subnet :=
  let mac := normalizeMac mac
  match alookup s.allocated mac with
  | some _ => (true, { s with allocated := aerase s.allocated mac })
  | none => (false, s)

/-- `Subnet.get_ip_for_mac(mac)`: reservation first, then allocation. -/
def Subnet.get_ip_for_mac (s : Subnet) (mac : MacStr) : Option Nat :=
  let mac := normalizeMac mac
  match alookup s.reservations mac with
  | some ip => some ip
  | none => alookup s.allocated mac

/-- `IPManager`: the subnet list plus the global reservation table
(normalized keys, built in `__init__`). -/
structure IPManager where
  subnets : List Subnet
  global_reservations : List (MacStr × Nat)
deriving DecidableEq, Repr

/-- `IPManager._find_subnet_by_giaddr(giaddr)`: the first subnet whose
gateway equals `giaddr` or whose network contains it; `None` when `giaddr`
is falsy. -/
def IPManager.find_subnet_by_giaddr (m : IPManager) (giaddr : Option Nat) : Option Subnet :=
  match giaddr with
  | none => none
  | some g => m.subnets.find? (fun s => s.gateway == some g || s.has_ip g)

/-- `IPManager._find_subnet_by_requested_ip(requested_ip)`. -/
def IPManager.find_subnet_by_requested_ip (m : IPManager) (requested_ip : Option Nat) :
    Option Subnet :=
  match requested_ip with
  | none => none
  | some ip => m.subnets.find? (fun s => s.has_ip ip)

/-- The fallback loop of `IPManager.allocate_ip`: try each subnet in order
with `requested_ip=None`; the first one returning an address wins (a subnet
that returns `None` is left unchanged by `allocate_for_mac`).  Returns the
`(ip, subnet)` pair and the updated subnet list. -/
def allocateFallback (mac : MacStr) : List Subnet → (Option Nat × Option Subnet) × List Subnet
  | [] => ((none, none), [])
  | s :: rest =>
    match s.allocate_for_mac mac none with
    | (some ip, s') => ((some ip, some s'), s' :: rest)
    | (none, s') =>
      let r := allocateFallback mac rest
      (r.1, s' :: r.2)

/-- Replace the first subnet satisfying `p` by the result of `f` applied to
it; models in-place mutation of the subnet object found by a `_find_` helper. -/
def updateFirstSubnet (p : Subnet → Bool) (f : Subnet → Option Nat × Subnet) :
    List Subnet → (Option Nat × Option Subnet) × List Subnet
  | [] => ((none, none), [])
  | s :: rest =>
    if p s then
      let (ip, s') := f s
      ((ip, some s'), s' :: rest)
    else
      let r := updateFirstSubnet p f rest
      (r.1, s :: r.2)

/-- Steps (2)–(3) of `IPManager.allocate_ip` when `giaddr` selects nothing:
try the subnet owning `requested_ip`, then the fallback scan. -/
def IPManager.allocateByRequested (m : IPManager) (mac : MacStr)
    (requested_ip : Option Nat) : (Option Nat × Option Subnet) × IPManager :=
  match requested_ip with
  | some rip =>
    if (m.subnets.find? (fun s => s.has_ip rip)).isSome then
      let r := updateFirstSubnet (fun s => s.has_ip rip)
        (fun s => s.allocate_for_mac mac requested_ip) m.subnets
      (r.1, { m with subnets := r.2 })
    else
      let r := allocateFallback mac m.subnets
      (r.1, { m with subnets := r.2 })
  | none =>
    let r := allocateFallback mac m.subnets
    (r.1, { m with subnets := r.2 })

/-- `IPManager.allocate_ip(mac, requested_ip, giaddr)`: the returned pair
models the Python 2-tuple `(ip, subnet)`; the subnet component is the
post-update snapshot of the subnet object the source returns by reference. -/
def IPManager.allocate_ip (m : IPManager) (mac : MacStr)
    (requested_ip giaddr : Option Nat) : (Option Nat × Option Subnet) × IPManager :=
  let mac_norm := normalizeMac mac
  match alookup m.global_reservations mac_norm with
  | some ip =>
    -- Global reservation: return it with whichever subnet owns the address
    ((some ip, m.find_subnet_by_requested_ip (some ip)), m)
  | none =>
    match giaddr with
    | some g =>
      if (m.subnets.find? (fun s => s.gateway == some g || s.has_ip g)).isSome then
        let r := updateFirstSubnet (fun s => s.gateway == some g || s.has_ip g)
          (fun s => s.allocate_for_mac mac requested_ip) m.subnets
        (r.1, { m with subnets := r.2 })
      else m.allocateByRequested mac requested_ip
    | none => m.allocateByRequested mac requested_ip

/-- The lookup loop of `IPManager.get_ip`: first subnet reporting an
address for the MAC wins. -/
def getIpLoop (mac : MacStr) : List Subnet → Option Nat
  | [] => none
  | s :: rest =>
    match s.get_ip_for_mac mac with
    | some ip => some ip
    | none => getIpLoop mac rest

/-- `IPManager.get_ip(mac)`: global reservations first, then each subnet. -/
def IPManager.get_ip (m : IPManager) (mac : MacStr) : Option Nat :=
  let mac_norm := normalizeMac mac
  match alookup m.global_reservations mac_norm with
  | some ip => some ip
  | none => getIpLoop mac m.subnets

/-! ## `lease_manager.py` — the lease store -/

/-- One lease record; timestamps are integers (`datetime` instants), the
duration a natural number of seconds. -/
structure Lease where
  ip_address : Nat
  start_time : Int
  expires_at : Int
  lease_time : Nat
deriving DecidableEq, Repr

abbrev LeaseTable := List (MacStr × Lease)

/-- The in-memory state of `LeaseManager` (the lease file path only feeds
`save_leases`/`load_leases`, which perform I/O and are modelled by the
"persisted" flag returned where the claims mention persistence). -/
structure LeaseManager where
  default_lease_time : Nat
  leases : LeaseTable
deriving DecidableEq, Repr

/-- `LeaseManager.create_lease(mac, ip, lease_time)` at current time `now`:
overwrite the MAC's entry with `expires_at = now + lease_time` and persist. -/
def LeaseManager.create_lease (lm : LeaseManager) (mac : MacStr) (ip : Nat)
    (lease_time : Option Nat) (now : Int) : LeaseManager :=
  let lt := lease_time.getD lm.default_lease_time
  let lease : Lease :=
    { ip_address := ip, start_time := now, expires_at := now + lt, lease_time := lt }
  { lm with leases := ainsert lm.leases mac lease }

/-- `LeaseManager.release_lease(mac)`. -/
def LeaseManager.release_lease (lm : LeaseManager) (mac : MacStr) : Bool × LeaseManager :=
  match alookup lm.leases mac with
  | some _ => (true, { lm with leases := aerase lm.leases mac })
  | none => (false, lm)

/-- `LeaseManager.is_lease_valid(mac)` at time `now`. -/
def LeaseManager.is_lease_valid (lm : LeaseManager) (mac : MacStr) (now : Int) : Bool :=
  match alookup lm.leases mac with
  | none => false
  | some lease => now < lease.expires_at

/-- `LeaseManager.cleanup_expired_leases()` at time `now`: collect the MACs
whose lease satisfies `now >= expires_at`, pop each of them, persist only
when any were removed.  Returns the new state, the removed count, and
whether the snapshot was written. -/
def LeaseManager.cleanup_expired_leases (lm : LeaseManager) (now : Int) :
    LeaseManager × Nat × Bool :=
  let expired := (lm.leases.filter (fun e => decide (now ≥ e.2.expires_at))).map Prod.fst
  let leases' := expired.foldl (fun acc mac => aerase acc mac) lm.leases
  ({ lm with leases := leases' }, expired.length, !expired.isEmpty)

/-! ## `dhcp_server.py` — the engine -/

/-- The configuration fields `DHCPServer.__init__` copies out of the JSON
config: server IP, mask, gateway, DNS servers, default lease time. -/
structure ServerConfig where
  server_ip : Nat
  subnet_mask : Nat
  gateway : Nat
  dns_servers : List Nat
  lease_time : Nat
deriving DecidableEq, Repr

/-- A reply message under construction.  The source drops the allocation
result straight into the `yiaddr` attribute of a fresh `DHCPPacket`; since
`handle_discover` passes the `(ip, subnet)` 2-tuple returned by
`IPManager.allocate_ip` where `build_offer` expects an address, the slot's
type is a parameter: `Nat` for a well-typed address, the pair type for the
value the DISCOVER path actually stores there. -/
structure ReplyMsg (α : Type) where
  op : Nat
  htype : Nat
  hlen : Nat
  hops : Nat
  xid : Nat
  secs : Nat
  flags : Nat
  ciaddr : Nat
  yiaddr : α
  siaddr : Nat
  giaddr : Nat
  chaddr : List Nat
  sname : List Nat
  file : List Nat
  options : List (Nat × List Nat)
deriving DecidableEq, Repr

/-- `DHCPServer.build_offer(request_packet, offered_ip)`: BOOTREPLY header
copied from the request, `yiaddr` set to the offered value, and the options
dict filled in assignment order: message type OFFER (2), server id, lease
time, subnet mask, router, DNS servers. -/
def build_offer {α : Type} (cfg : ServerConfig) (req : DHCPPacket) (offered_ip : α) :
    ReplyMsg α :=
  { op := 2, htype := req.htype, hlen := req.hlen, hops := 0, xid := req.xid, secs := 0
    flags := req.flags, ciaddr := 0, yiaddr := offered_ip, siaddr := cfg.server_ip
    giaddr := 0, chaddr := req.chaddr, sname := [], file := []
    options :=
      ainsert (ainsert (ainsert (ainsert (ainsert (ainsert [] 53 [2])
        54 (toBytesBE 4 cfg.server_ip))
        51 (toBytesBE 4 cfg.lease_time))
        1 (toBytesBE 4 cfg.subnet_mask))
        3 (toBytesBE 4 cfg.gateway))
        6 (cfg.dns_servers.flatMap (toBytesBE 4)) }

/-- `DHCPServer.build_ack(request_packet, assigned_ip)`: identical to
`build_offer` except the message-type option value is ACK (5). -/
def build_ack {α : Type} (cfg : ServerConfig) (req : DHCPPacket) (assigned_ip : α) :
    ReplyMsg α :=
  { op := 2, htype := req.htype, hlen := req.hlen, hops := 0, xid := req.xid, secs := 0
    flags := req.flags, ciaddr := 0, yiaddr := assigned_ip, siaddr := cfg.server_ip
    giaddr := 0, chaddr := req.chaddr, sname := [], file := []
    options :=
      ainsert (ainsert (ainsert (ainsert (ainsert (ainsert [] 53 [5])
        54 (toBytesBE 4 cfg.server_ip))
        51 (toBytesBE 4 cfg.lease_time))
        1 (toBytesBE 4 cfg.subnet_mask))
        3 (toBytesBE 4 cfg.gateway))
        6 (cfg.dns_servers.flatMap (toBytesBE 4)) }

/-- What `DHCPServer.handle_discover` does with one packet: return without
building a reply (the `if not allocated_ip: return` branch), build and send
an OFFER whose `yiaddr` is whatever value `allocate_ip` returned, or let
the `OSError` raised by `get_requested_ip` escape to the dispatcher's
catch-all before any allocation happens (nothing is sent). -/
inductive DiscoverOutcome where
  | drop
  | offerReply (msg : ReplyMsg (Option Nat × Option Subnet))
  | crash
deriving DecidableEq

/-- Python truthiness of a 2-tuple: a non-empty tuple is always truthy,
regardless of its components — `not (None, None)` is `False`. -/
def pyTruthyPair {α β : Type} (_ : α × β) : Bool := true

/-- `DHCPServer.handle_discover(packet, address)`: read the MAC and the
requested-IP option (whose `inet_ntoa` may raise, aborting the handler),
allocate, test the result for truthiness, and build/send the OFFER.
`allocate_ip` is called with the client MAC and the requested-IP option
(giaddr defaulted). -/
def handle_discover (cfg : ServerConfig) (m : IPManager) (pkt : DHCPPacket) :
    DiscoverOutcome × IPManager :=
  let mac := pkt.get_client_mac
  match pkt.get_requested_ip with
  | Except.error _ => (DiscoverOutcome.crash, m)  -- OSError before allocate_ip
  | Except.ok requested_ip =>
    let r := m.allocate_ip mac requested_ip none
    -- `if not allocated_ip: return` — allocated_ip is the (ip, subnet) tuple
    if pyTruthyPair r.1 = false then (DiscoverOutcome.drop, r.2)
    else (DiscoverOutcome.offerReply (build_offer cfg pkt r.1), r.2)

/-- What `DHCPServer.handle_request_packet` does with one packet: send an
ACK after creating a lease, log a warning and send nothing (the NAK is an
unimplemented TODO in the source), or let the `OSError` raised by
`get_requested_ip` escape to the dispatcher's catch-all — no reply and no
lease in that case either. -/
inductive RequestOutcome where
  | ackReply (msg : ReplyMsg Nat) (lm : LeaseManager)
  | warnNoReply (lm : LeaseManager)
  | crash (lm : LeaseManager)
deriving DecidableEq

/-- `DHCPServer.handle_request_packet(packet, address)` over manager `m`,
lease store `lm`, at time `now`. -/
def handle_request_packet (cfg : ServerConfig) (m : IPManager) (lm : LeaseManager)
    (now : Int) (pkt : DHCPPacket) : RequestOutcome :=
  let mac := pkt.get_client_mac
  -- `requested_ip = packet.get_requested_ip() or packet.ciaddr`
  match pkt.get_requested_ip with
  | Except.error _ => RequestOutcome.crash lm  -- OSError before the lookup
  | Except.ok ro =>
    let requested_ip := ro.getD pkt.ciaddr
    match m.get_ip mac with
    | some allocated_ip =>
      if allocated_ip = requested_ip then
        RequestOutcome.ackReply (build_ack cfg pkt allocated_ip)
          (lm.create_lease mac allocated_ip (some cfg.lease_time) now)
      else RequestOutcome.warnNoReply lm  -- "Cannot provide requested IP", no NAK
    | none => RequestOutcome.warnNoReply lm

/-- The routing prefix of `DHCPServer.handle_request(data, address)`:
parse, read the message type, and either bail out (parse failure, missing
type), crash (the `IndexError` from `get_message_type` propagates to the
caller's catch-all), or dispatch on the type byte. -/
inductive RouteOutcome where
  | parseFailure
  | noMessageType
  | crash
  | routed (msg_type : Nat)
deriving DecidableEq

def handle_request_route (data : List Nat) : RouteOutcome :=
  match DHCPPacket.parse data with
  | none => RouteOutcome.parseFailure
  | some pkt =>
    match pkt.get_message_type with
    | Except.error () => RouteOutcome.crash
    | Except.ok none => RouteOutcome.noMessageType
    | Except.ok (some t) => RouteOutcome.routed t

/-! ## Concrete test fixtures used by the witness theorems -/

/-- ASCII codes of `"aa:bb:cc:dd:ee:ff"`. -/
def macAa : MacStr := [97,97,58,98,98,58,99,99,58,100,100,58,101,101,58,102,102]

/-- ASCII codes of `"AA-BB-CC-DD-EE-FF"`: same hardware address, upper case,
dash separators. -/
def macAaVariant : MacStr := [65,65,45,66,66,45,67,67,45,68,68,45,69,69,45,70,70]

/-- ASCII codes of `"11:22:33:44:55:66"`. -/
def macOther : MacStr := [49,49,58,50,50,58,51,51,58,52,52,58,53,53,58,54,54]

/-- ASCII codes of `"de:ad:be:ef:00:01"`. -/
def macRes : MacStr := [100,101,58,97,100,58,98,101,58,101,102,58,48,48,58,48,49]

/-- The corresponding client hardware address bytes for `macAa`. -/
def chaddrAa : List Nat := [170, 187, 204, 221, 238, 255]

/-- A subnet with a reservation for `macRes` to address 50, which lies
outside the dynamic pool `[100, 101]`. -/
def subnetRes : Subnet :=
  { netAddr := 0, prefixLen := 24, subnet_mask := 0, gateway := none, dns_servers := []
    reservations := [(macRes, 50)], pool := [100, 101], allocated := [] }

/-- A subnet with one free pool address: pool `{102, 100, 101}` (listed out
of order), 101 reserved for `macRes`, 100 allocated to `macOther`. -/
def subnetFree : Subnet :=
  { netAddr := 0, prefixLen := 24, subnet_mask := 0, gateway := none, dns_servers := []
    reservations := [(macRes, 101)], pool := [102, 100, 101]
    allocated := [(macOther, 100)] }

/-- A subnet with every pool address reserved or allocated. -/
def subnetFull : Subnet :=
  { netAddr := 0, prefixLen := 24, subnet_mask := 0, gateway := none, dns_servers := []
    reservations := [(macRes, 101)], pool := [100, 101]
    allocated := [(macOther, 100)] }

/-- A manager whose only subnet is exhausted. -/
def exhaustedMgr : IPManager := { subnets := [subnetFull], global_reservations := [] }

/-- A manager that currently tracks `macAa ↦ 100`. -/
def mgrTracking : IPManager :=
  { subnets := [{ netAddr := 0, prefixLen := 24, subnet_mask := 0, gateway := none
                  dns_servers := [], reservations := [], pool := [100, 101]
                  allocated := [(macAa, 100)] }]
    global_reservations := [] }

/-- A small server configuration. -/
def cfg0 : ServerConfig :=
  { server_ip := 1, subnet_mask := 2, gateway := 3, dns_servers := [4], lease_time := 3600 }

/-- A DISCOVER message from `chaddrAa` with no requested-IP option. -/
def pktDiscover : DHCPPacket :=
  { DHCPPacket.init with xid := 0x1234, chaddr := chaddrAa, options := [(53, [1])] }

/-- A REQUEST message from `chaddrAa` asking for address 100 via option 50. -/
def pktRequest : DHCPPacket :=
  { DHCPPacket.init with
    xid := 0x1234
    chaddr := chaddrAa
    options := [(53, [3]), (50, [0, 0, 0, 100])] }

/-- A REQUEST like `pktRequest`, but option 50 carries five bytes — a
length `inet_ntoa` rejects. -/
def pktRequestBad : DHCPPacket :=
  { DHCPPacket.init with
    xid := 0x1234
    chaddr := chaddrAa
    options := [(53, [3]), (50, [0, 0, 0, 0, 100])] }

/-- A lease table with one lease expiring at time 100 and one at time 200. -/
def lmDemo : LeaseManager :=
  { default_lease_time := 86400
    leases := [(macAa, { ip_address := 100, start_time := 0, expires_at := 100, lease_time := 100 }),
               (macOther, { ip_address := 101, start_time := 0, expires_at := 200, lease_time := 200 })] }

/-- A wire packet: zero header, magic cookie, then option 53 with declared
length zero, then the end marker. -/
def wire53Empty : List Nat := List.replicate 236 0 ++ MAGIC_COOKIE ++ [53, 0, 255]

/-- A 240-byte wire packet whose four post-header bytes are not the cookie. -/
def wireBadCookie : List Nat := List.replicate 236 0 ++ [1, 2, 3, 4]

/-- Two spellings related here denote the same six-part hardware address:
characterwise they are equal, both separators (`'-'`, `'.'`, `':'`), or
case variants of the same letter. -/
def macCharVariant (c d : Nat) : Prop :=
  c = d ∨ (c ∈ ([45, 46, 58] : List Nat) ∧ d ∈ ([45, 46, 58] : List Nat)) ∨
    lowerChar c = lowerChar d

/-- A fully populated valid message for the round-trip witness. -/
def pktRound : DHCPPacket :=
  { op := 1, htype := 1, hlen := 6, hops := 0, xid := 0x12345678, secs := 10, flags := 0x8000
    ciaddr := 0, yiaddr := 0, siaddr := 0x0A000001, giaddr := 0
    chaddr := chaddrAa, sname := [115, 114, 118], file := [98, 111, 111, 116]
    options := [(53, [1]), (50, [192, 168, 1, 5]), (55, [1, 3, 6])] }

/-! ## Helper lemmas -/

@[simp] theorem length_toBytesBE (w n : Nat) : (toBytesBE w n).length = w := by
  induction w generalizing n with
  | zero => rfl
  | succ w ih => simp [toBytesBE, ih]

theorem fromBytesBE_append (l₁ l₂ : List Nat) :
    fromBytesBE (l₁ ++ l₂) =
      (fromBytesBE l₂) + (fromBytesBE l₁) * 256 ^ l₂.length := by
  induction l₂ using List.reverseRecOn with
  | nil => simp [fromBytesBE]
  | append_singleton l₂ b ih =>
    simp only [fromBytesBE, ← List.append_assoc, List.foldl_append, List.foldl_cons,
      List.foldl_nil, List.length_append, List.length_cons, List.length_nil] at *
    rw [ih]; ring

theorem fromBytesBE_singleton (b : Nat) : fromBytesBE [b] = b := by
  simp [fromBytesBE]

theorem fromBytesBE_toBytesBE (w n : Nat) :
    fromBytesBE (toBytesBE w n) = n % 256 ^ w := by
  induction w generalizing n with
  | zero => simp [toBytesBE, fromBytesBE, Nat.mod_one]
  | succ w ih =>
    rw [toBytesBE, fromBytesBE_append, fromBytesBE_singleton, ih]
    have hmul : 256 ^ (w + 1) = 256 * 256 ^ w := by ring
    rw [hmul, Nat.mod_mul]
    simp [List.length_cons, Nat.mul_comm]

theorem fromBytesBE_toBytesBE_of_lt {w n : Nat} (h : n < 256 ^ w) :
    fromBytesBE (toBytesBE w n) = n := by
  rw [fromBytesBE_toBytesBE, Nat.mod_eq_of_lt h]

/-- Skipping a leading chunk of known length inside a slice. -/
theorem pySlice_append_skip {x rest : List Nat} {off w : Nat}
    (h : x.length ≤ off) :
    pySlice (x ++ rest) off w = pySlice rest (off - x.length) w := by
  unfold pySlice
  rw [List.drop_append_eq_append_drop, List.drop_eq_nil_of_le h, List.nil_append]

theorem pySlice_append_exact {x rest : List Nat} {w : Nat} (h : x.length = w) :
    pySlice (x ++ rest) 0 w = x := by
  unfold pySlice
  rw [List.drop_zero, List.take_left' h]


theorem alookup_ainsert_self {α β : Type} [DecidableEq α]
    (l : List (α × β)) (k : α) (v : β) : alookup (ainsert l k v) k = some v := by
  induction l with
  | nil => simp [ainsert, alookup]
  | cons e t ih =>
    obtain ⟨k', v'⟩ := e
    by_cases h : k' = k <;> simp [ainsert, alookup, h, ih]

/-- C4.  Reservation precedence in `Subnet.allocate_for_mac`: a configured
reservation for the (normalized) MAC is returned unconditionally — for any
requested IP and any allocation-table state — and is recorded as the MAC's
current allocation; no pool-membership condition is involved. -/
theorem allocate_for_mac_reservation_precedence
    (s : Subnet) (M : MacStr) (R : Nat) (X : Option Nat)
    (h : alookup s.reservations (normalizeMac M) = some R) :
    s.allocate_for_mac M X =
      (some R, { s with allocated := ainsert s.allocated (normalizeMac M) R }) ∧
    alookup (s.allocate_for_mac M X).2.allocated (normalizeMac M) = some R := by
  have heq : s.allocate_for_mac M X =
      (some R, { s with allocated := ainsert s.allocated (normalizeMac M) R }) := by
    simp only [Subnet.allocate_for_mac, h]
  exact ⟨heq, by rw [heq]; exact alookup_ainsert_self s.allocated (normalizeMac M) R⟩

/-- C4 witness: `subnetRes` reserves `macRes` to 50 (outside the pool);
requesting pool address 100 still yields 50 and records it. -/
theorem allocate_for_mac_reservation_precedence_witness :
    alookup subnetRes.reservations (normalizeMac macRes) = some 50 ∧
    (subnetRes.allocate_for_mac macRes (some 100) =
      (some 50, { subnetRes with
                    allocated := ainsert subnetRes.allocated (normalizeMac macRes) 50 }) ∧
      alookup (subnetRes.allocate_for_mac macRes (some 100)).2.allocated
        (normalizeMac macRes) = some 50) :=
  ⟨by decide,
   allocate_for_mac_reservation_precedence subnetRes macRes 50 (some 100) (by decide)⟩

theorem find?_sorted_le {l : List Nat} {p : Nat → Bool} {x : Nat}
    (hs : List.Sorted (· ≤ ·) l) (hf : l.find? p = some x) :
    ∀ y ∈ l, p y = true → x ≤ y := by
  induction l with
  | nil => simp at hf
  | cons a t ih =>
    by_cases hpa : p a
    · rw [List.find?_cons_of_pos _ hpa] at hf
      obtain rfl : a = x := by injection hf
      intro y hy _
      rcases List.mem_cons.mp hy with rfl | hyt
      · exact le_refl _
      · exact (List.sorted_cons.mp hs).1 y hyt
    · rw [List.find?_cons_of_neg _ hpa] at hf
      intro y hy hpy
      rcases List.mem_cons.mp hy with rfl | hyt
      · exact absurd hpy hpa
      · exact ih (List.sorted_cons.mp hs).2 hf y hyt hpy

/-- Characterization of step (4) of `allocate_for_mac`: the scan over the
sorted pool grants the numerically lowest free address, and fails exactly
when no pool address is free. -/
theorem allocFirstAvailable_spec (s : Subnet) (mac : MacStr) :
    (∀ ip, (s.allocFirstAvailable mac).1 = some ip →
        ip ∈ s.pool ∧ ip ∉ avalues s.reservations ∧ ip ∉ avalues s.allocated ∧
        (∀ ip' ∈ s.pool, ip' ∉ avalues s.reservations → ip' ∉ avalues s.allocated →
          ip ≤ ip') ∧
        (s.allocFirstAvailable mac).2 =
          { s with allocated := ainsert s.allocated mac ip }) ∧
    ((s.allocFirstAvailable mac).1 = none ↔
        ∀ ip ∈ s.pool, ip ∈ avalues s.reservations ∨ ip ∈ avalues s.allocated) := by
  have hgoal : s.allocFirstAvailable mac =
      match (s.pool.insertionSort (· ≤ ·)).find?
          (fun ip => decide (ip ∉ avalues s.reservations ∧ ip ∉ avalues s.allocated)) with
      | some ip => (some ip, { s with allocated := ainsert s.allocated mac ip })
      | none => (none, s) := rfl
  cases hfind : (s.pool.insertionSort (· ≤ ·)).find?
      (fun ip => decide (ip ∉ avalues s.reservations ∧ ip ∉ avalues s.allocated)) with
  | none =>
    rw [hgoal, hfind]
    constructor
    · intro ip hip
      exact absurd hip (by simp)
    · refine ⟨fun _ ip hip => ?_, fun _ => rfl⟩
      have hmem : ip ∈ s.pool.insertionSort (· ≤ ·) :=
        (List.mem_insertionSort _).mpr hip
      have hne := List.find?_eq_none.mp hfind ip hmem
      simp only [decide_eq_true_eq, not_and_or, not_not] at hne
      tauto
  | some ip0 =>
    rw [hgoal, hfind]
    have hmem : ip0 ∈ s.pool :=
      (List.mem_insertionSort _).mp (List.mem_of_find?_eq_some hfind)
    have hpred := List.find?_some hfind
    simp only [decide_eq_true_eq] at hpred
    constructor
    · intro ip hip
      obtain rfl : ip0 = ip := by simpa using hip
      refine ⟨hmem, hpred.1, hpred.2, ?_, rfl⟩
      intro ip' hip' hres' halloc'
      exact find?_sorted_le (List.sorted_insertionSort _ _) hfind ip'
        ((List.mem_insertionSort _).mpr hip') (by simp [hres', halloc'])
    · constructor
      · intro h
        exact absurd h (by simp)
      · intro hall
        exact absurd (hall ip0 hmem) (by simp [hpred.1, hpred.2])

/-- C5.  For a MAC with no reservation, no existing allocation, and no
usable requested IP, `allocate_for_mac` grants the numerically lowest pool
address that is neither reserved nor currently allocated, and returns none
exactly when every pool address is reserved or allocated (so an exhausted
pool makes a fresh MAC's allocation fail). -/
theorem allocate_for_mac_lowest_free
    (s : Subnet) (M : MacStr) (X : Option Nat)
    (hres : alookup s.reservations (normalizeMac M) = none)
    (halloc : alookup s.allocated (normalizeMac M) = none)
    (hreq : ∀ rip, X = some rip → rip ∈ s.pool →
      rip ∈ avalues s.reservations ∨ rip ∈ avalues s.allocated) :
    (∀ ip, (s.allocate_for_mac M X).1 = some ip →
        ip ∈ s.pool ∧ ip ∉ avalues s.reservations ∧ ip ∉ avalues s.allocated ∧
        ∀ ip' ∈ s.pool, ip' ∉ avalues s.reservations → ip' ∉ avalues s.allocated →
          ip ≤ ip') ∧
    ((s.allocate_for_mac M X).1 = none ↔
        ∀ ip ∈ s.pool, ip ∈ avalues s.reservations ∨ ip ∈ avalues s.allocated) := by
  have hstep : s.allocate_for_mac M X = s.allocFirstAvailable (normalizeMac M) := by
    simp only [Subnet.allocate_for_mac, hres, halloc]
    match X with
    | none => rfl
    | some rip =>
      by_cases hpool : rip ∈ s.pool
      · have := hreq rip rfl hpool
        have hcond : ¬(rip ∉ avalues s.reservations ∧ rip ∉ avalues s.allocated) := by
          tauto
        simp [hpool, hcond]
      · simp [hpool]
  rw [hstep]
  have hspec := allocFirstAvailable_spec s (normalizeMac M)
  exact ⟨fun ip hip => (hspec.1 ip hip).imp_right (fun h => ⟨h.1, h.2.1, h.2.2.1⟩),
         hspec.2⟩

/-- C5 witness: in `subnetFree` (pool `{102, 100, 101}`, 101 reserved for
another MAC, 100 allocated to another MAC), a fresh MAC receives 102, the
lowest free address; in the exhausted `subnetFull` the same call fails. -/
theorem allocate_for_mac_lowest_free_witness :
    alookup subnetFree.reservations (normalizeMac macAa) = none ∧
    alookup subnetFree.allocated (normalizeMac macAa) = none ∧
    (subnetFree.allocate_for_mac macAa none).1 = some 102 ∧
    (subnetFull.allocate_for_mac macAa none).1 = none ∧
    ((subnetFree.allocate_for_mac macAa none).1 = none ↔
        ∀ ip ∈ subnetFree.pool,
          ip ∈ avalues subnetFree.reservations ∨ ip ∈ avalues subnetFree.allocated) :=
  ⟨by decide, by decide, by decide, by decide,
   (allocate_for_mac_lowest_free subnetFree macAa none (by decide) (by decide)
      (fun rip h => nomatch h)).2⟩

theorem normalizeMac_eq_map (l : MacStr) :
    normalizeMac l = (l.map sepFixChar).map lowerChar := by
  simp only [normalizeMac]
  split
  · exact List.intercalate_splitOn _ 58
  · rfl

theorem macStep_of_variant {c d : Nat} (h : macCharVariant c d) :
    lowerChar (sepFixChar c) = lowerChar (sepFixChar d) := by
  rcases h with rfl | ⟨hc, hd⟩ | hlow
  · rfl
  · simp only [List.mem_cons, List.not_mem_nil, or_false] at hc hd
    have hc' : sepFixChar c = 58 := by
      unfold sepFixChar; rcases hc with rfl | rfl | rfl <;> simp
    have hd' : sepFixChar d = 58 := by
      unfold sepFixChar; rcases hd with rfl | rfl | rfl <;> simp
    rw [hc', hd']
  · unfold sepFixChar lowerChar at *
    split_ifs at * <;> omega

theorem normalizeMac_of_variants {m₁ m₂ : MacStr}
    (h : List.Forall₂ macCharVariant m₁ m₂) :
    normalizeMac m₁ = normalizeMac m₂ := by
  rw [normalizeMac_eq_map, normalizeMac_eq_map, List.map_map, List.map_map]
  induction h with
  | nil => rfl
  | cons hcd _ ih =>
    simp only [List.map_cons, Function.comp_apply, ih, List.cons.injEq, and_true]
    exact macStep_of_variant hcd

/-- C9.  `allocate_for_mac`, `release` and `get_ip_for_mac` each rewrite
their MAC argument to canonical form first, so two spellings of the same
six-part hardware address that differ only in letter case or in separator
characters produce the same result and the same final subnet state; the
normalization itself is idempotent. -/
theorem subnet_ops_mac_spelling_insensitive
    (s : Subnet) (m₁ m₂ : MacStr) (X : Option Nat)
    (h : List.Forall₂ macCharVariant m₁ m₂) :
    s.allocate_for_mac m₁ X = s.allocate_for_mac m₂ X ∧
    s.release m₁ = s.release m₂ ∧
    s.get_ip_for_mac m₁ = s.get_ip_for_mac m₂ ∧
    normalizeMac (normalizeMac m₁) = normalizeMac m₁ := by
  have hnorm : normalizeMac m₁ = normalizeMac m₂ := normalizeMac_of_variants h
  refine ⟨?_, ?_, ?_, ?_⟩
  · unfold Subnet.allocate_for_mac; rw [hnorm]
  · unfold Subnet.release; rw [hnorm]
  · unfold Subnet.get_ip_for_mac; rw [hnorm]
  · rw [normalizeMac_eq_map (normalizeMac m₁), normalizeMac_eq_map m₁,
      List.map_map, List.map_map, List.map_map, List.map_map]
    apply List.map_congr_left
    intro c _
    simp only [Function.comp_apply]
    unfold sepFixChar lowerChar
    split_ifs <;> omega

/-- C9 witness: `"AA-BB-CC-DD-EE-FF"` and `"aa:bb:cc:dd:ee:ff"` behave
identically on `subnetFree`. -/
theorem subnet_ops_mac_spelling_insensitive_witness :
    List.Forall₂ macCharVariant macAaVariant macAa ∧
    (subnetFree.allocate_for_mac macAaVariant (some 102) =
        subnetFree.allocate_for_mac macAa (some 102) ∧
      subnetFree.release macAaVariant = subnetFree.release macAa ∧
      subnetFree.get_ip_for_mac macAaVariant = subnetFree.get_ip_for_mac macAa ∧
      normalizeMac (normalizeMac macAaVariant) = normalizeMac macAaVariant) :=
  ⟨by simp [macAaVariant, macAa, List.forall₂_cons, macCharVariant, lowerChar],
   subnet_ops_mac_spelling_insensitive subnetFree macAaVariant macAa (some 102)
     (by simp [macAaVariant, macAa, List.forall₂_cons, macCharVariant, lowerChar])⟩

theorem aerase_cons_ne {α β : Type} [DecidableEq α]
    (e : α × β) (t : List (α × β)) (k : α) (h : e.1 ≠ k) :
    aerase (e :: t) k = e :: aerase t k := by
  obtain ⟨k', v'⟩ := e
  simp [aerase, h]

theorem foldl_aerase_untouched {α β : Type} [DecidableEq α]
    (e : α × β) (t : List (α × β)) (ks : List α) (h : ∀ k ∈ ks, k ≠ e.1) :
    ks.foldl (fun acc k => aerase acc k) (e :: t)
      = e :: ks.foldl (fun acc k => aerase acc k) t := by
  induction ks generalizing t with
  | nil => rfl
  | cons k ks ih =>
    rw [List.foldl_cons, List.foldl_cons,
      aerase_cons_ne e t k (fun hk => h k (List.mem_cons_self k ks) hk.symm)]
    exact ih (aerase t k) (fun k' hk' => h k' (List.mem_cons_of_mem k hk'))

/-- Popping exactly the keys of the entries matched by `p` from a
unique-key table is filtering by `!p`. -/
theorem foldl_aerase_filter {α β : Type} [DecidableEq α]
    (p : α × β → Bool) (l : List (α × β)) (hnd : (akeys l).Nodup) :
    ((l.filter p).map Prod.fst).foldl (fun acc k => aerase acc k) l
      = l.filter (fun e => !p e) := by
  induction l with
  | nil => rfl
  | cons e t ih =>
    have hnd' := hnd
    rw [akeys, List.map_cons, List.nodup_cons] at hnd'
    by_cases hp : p e
    · rw [List.filter_cons_of_pos hp, List.map_cons, List.foldl_cons]
      have : aerase (e :: t) e.1 = t := by
        obtain ⟨k', v'⟩ := e; simp [aerase]
      rw [this, ih hnd'.2, List.filter_cons_of_neg (by simp [hp])]
    · rw [List.filter_cons_of_neg hp, List.filter_cons_of_pos (by simp [hp]),
        foldl_aerase_untouched]
      · rw [ih hnd'.2]
      · intro k hk
        have : k ∈ akeys t := by
          rcases List.mem_map.mp hk with ⟨e', he', rfl⟩
          exact List.mem_map.mpr ⟨e', (List.mem_of_mem_filter he'), rfl⟩
        exact fun heq => hnd'.1 (heq ▸ this)

/-- C8.  `cleanup_expired_leases` removes exactly the leases with
`expires_at ≤ now`, returns the removed count, persists exactly when that
count is at least one, and an immediately repeated call removes nothing,
returns zero, and does not persist. -/
theorem cleanup_expired_leases_spec (lm : LeaseManager) (now : Int)
    (hnd : (akeys lm.leases).Nodup) :
    (lm.cleanup_expired_leases now).1.leases
        = lm.leases.filter (fun e => decide (now < e.2.expires_at)) ∧
    (lm.cleanup_expired_leases now).2.1
        = (lm.leases.filter (fun e => decide (e.2.expires_at ≤ now))).length ∧
    ((lm.cleanup_expired_leases now).2.2 = true ↔
        1 ≤ (lm.cleanup_expired_leases now).2.1) ∧
    ((lm.cleanup_expired_leases now).1.cleanup_expired_leases now).1
        = (lm.cleanup_expired_leases now).1 ∧
    ((lm.cleanup_expired_leases now).1.cleanup_expired_leases now).2.1 = 0 ∧
    ((lm.cleanup_expired_leases now).1.cleanup_expired_leases now).2.2 = false := by
  have hfilter :
      lm.leases.filter (fun e => !decide (now ≥ e.2.expires_at))
        = lm.leases.filter (fun e => decide (now < e.2.expires_at)) := by
    apply List.filter_congr
    intro e _
    simp only [← decide_not, decide_eq_decide]
    omega
  have hmain : (lm.cleanup_expired_leases now).1.leases
      = lm.leases.filter (fun e => decide (now < e.2.expires_at)) := by
    show ((lm.leases.filter (fun e => decide (now ≥ e.2.expires_at))).map Prod.fst).foldl
        (fun acc k => aerase acc k) lm.leases = _
    rw [foldl_aerase_filter _ _ hnd, hfilter]
  have hcount : (lm.cleanup_expired_leases now).2.1
      = (lm.leases.filter (fun e => decide (e.2.expires_at ≤ now))).length := by
    show ((lm.leases.filter (fun e => decide (now ≥ e.2.expires_at))).map Prod.fst).length = _
    rw [List.length_map]
  have hsecond : (lm.cleanup_expired_leases now).1.leases.filter
      (fun e => decide (now ≥ e.2.expires_at)) = [] := by
    rw [hmain, List.filter_filter]
    apply List.filter_eq_nil_iff.mpr
    intro e _
    simp only [Bool.and_eq_true, decide_eq_true_eq, not_and, ge_iff_le]
    omega
  have hflag : (lm.cleanup_expired_leases now).2.2 = true ↔
      1 ≤ (lm.cleanup_expired_leases now).2.1 := by
    show (!((lm.leases.filter (fun e => decide (now ≥ e.2.expires_at))).map
        Prod.fst).isEmpty) = true ↔
      1 ≤ ((lm.leases.filter (fun e => decide (now ≥ e.2.expires_at))).map Prod.fst).length
    cases (lm.leases.filter (fun e => decide (now ≥ e.2.expires_at))).map Prod.fst <;> simp
  refine ⟨hmain, hcount, hflag, ?_, ?_, ?_⟩
  · generalize hr : (lm.cleanup_expired_leases now).1 = r₁ at hsecond
    simp only [LeaseManager.cleanup_expired_leases, hsecond, List.map_nil, List.foldl_nil]
  · generalize hr : (lm.cleanup_expired_leases now).1 = r₁ at hsecond
    simp only [LeaseManager.cleanup_expired_leases, hsecond, List.map_nil, List.length_nil]
  · generalize hr : (lm.cleanup_expired_leases now).1 = r₁ at hsecond
    simp only [LeaseManager.cleanup_expired_leases, hsecond, List.map_nil]
    rfl

/-- C8 witness: at time 150 exactly the lease expiring at 100 is removed
from `lmDemo` (count 1, snapshot written); the repeated call is a no-op. -/
theorem cleanup_expired_leases_spec_witness :
    (akeys lmDemo.leases).Nodup ∧
    ((lmDemo.cleanup_expired_leases 150).1.leases
        = lmDemo.leases.filter (fun e => decide ((150 : Int) < e.2.expires_at)) ∧
      (lmDemo.cleanup_expired_leases 150).2.1
        = (lmDemo.leases.filter (fun e => decide (e.2.expires_at ≤ (150 : Int)))).length ∧
      ((lmDemo.cleanup_expired_leases 150).2.2 = true ↔
          1 ≤ (lmDemo.cleanup_expired_leases 150).2.1) ∧
      ((lmDemo.cleanup_expired_leases 150).1.cleanup_expired_leases 150).1
          = (lmDemo.cleanup_expired_leases 150).1 ∧
      ((lmDemo.cleanup_expired_leases 150).1.cleanup_expired_leases 150).2.1 = 0 ∧
      ((lmDemo.cleanup_expired_leases 150).1.cleanup_expired_leases 150).2.2 = false) :=
  ⟨by decide, cleanup_expired_leases_spec lmDemo 150 (by decide)⟩

theorem parseOptionsGo_eq_of_le :
    ∀ (fuel : Nat) (data : List Nat) (acc : List (Nat × List Nat)),
      data.length ≤ fuel →
      parseOptionsGo fuel data acc = parseOptionsGo data.length data acc := by
  intro fuel
  induction fuel using Nat.strong_induction_on with
  | _ fuel ih =>
    intro data acc h
    cases fuel with
    | zero =>
      obtain rfl : data = [] := List.eq_nil_of_length_eq_zero (Nat.le_zero.mp h)
      rfl
    | succ f =>
      cases data with
      | nil => rfl
      | cons code rest =>
        simp only [List.length_cons] at h ⊢
        by_cases h255 : code = 255
        · simp [parseOptionsGo, h255]
        by_cases h0 : code = 0
        · subst h0
          have hrw := ih f (Nat.lt_succ_self f) rest acc (by omega)
          simp [parseOptionsGo, hrw]
        cases rest with
        | nil => simp [parseOptionsGo, h255, h0]
        | cons len rest2 =>
          simp only [List.length_cons] at h ⊢
          by_cases hlen : rest2.length < len
          · simp [parseOptionsGo, h255, h0, hlen]
          · simp only [parseOptionsGo]
            rw [if_neg h255, if_neg h0, if_neg hlen, if_neg h255, if_neg h0, if_neg hlen,
              ih f (Nat.lt_succ_self f) (rest2.drop len) _
                (by rw [List.length_drop]; omega),
              ih (rest2.length + 1) (by omega) (rest2.drop len) _
                (by rw [List.length_drop]; omega)]

theorem parseOptionsGo_truncated (fuel : Nat) (t : List Nat)
    (acc : List (Nat × List Nat))
    (h : (∃ c, t = [c] ∧ c ≠ 0 ∧ c ≠ 255) ∨
      (∃ c len rest, t = c :: len :: rest ∧ c ≠ 0 ∧ c ≠ 255 ∧ rest.length < len)) :
    parseOptionsGo fuel t acc = acc := by
  rcases h with ⟨c, rfl, h0, h255⟩ | ⟨c, len, rest, rfl, h0, h255, hlt⟩
  · cases fuel <;> simp [parseOptionsGo, h0, h255]
  · cases fuel <;> simp [parseOptionsGo, h0, h255, hlt]

/-- Scanning a well-formed encoded option sequence followed by anything:
each `(code, length, value)` triple is consumed and inserted, then the
scan continues on the remainder. -/
theorem parseOptionsGo_wire (opts : List (Nat × List Nat)) (t : List Nat) :
    ∀ (acc : List (Nat × List Nat)) (fuel : Nat),
      (∀ cv ∈ opts, cv.1 ≠ 0 ∧ cv.1 ≠ 255) →
      (optionsWire opts ++ t).length ≤ fuel →
      parseOptionsGo fuel (optionsWire opts ++ t) acc
        = parseOptionsGo t.length t
            (opts.foldl (fun a cv => ainsert a cv.1 cv.2) acc) := by
  induction opts with
  | nil =>
    intro acc fuel _ hf
    simp only [optionsWire, List.flatMap_nil, List.nil_append, List.foldl_nil] at hf ⊢
    exact parseOptionsGo_eq_of_le fuel t acc hf
  | cons cv rest ih =>
    intro acc fuel hwf hf
    obtain ⟨c, v⟩ := cv
    have hc := hwf (c, v) (List.mem_cons_self _ _)
    have hwire : optionsWire ((c, v) :: rest) ++ t
        = c :: v.length :: (v ++ (optionsWire rest ++ t)) := by
      simp [optionsWire, List.flatMap_cons, List.append_assoc]
    rw [hwire] at hf ⊢
    cases fuel with
    | zero => simp at hf
    | succ f =>
      have hstep : parseOptionsGo (f + 1) (c :: v.length :: (v ++ (optionsWire rest ++ t))) acc
          = parseOptionsGo f (optionsWire rest ++ t) (ainsert acc c v) := by
        simp only [parseOptionsGo]
        rw [if_neg hc.2, if_neg hc.1,
          if_neg (by rw [List.length_append]; omega),
          List.drop_left, List.take_left]
      rw [hstep, List.foldl_cons]
      exact ih (ainsert acc c v) f
        (fun cv hcv => hwf cv (List.mem_cons_of_mem _ hcv))
        (by simp only [List.length_cons, List.length_append] at hf ⊢; omega)

theorem ainsert_append {α β : Type} [DecidableEq α]
    (l : List (α × β)) (k : α) (v : β) (h : k ∉ akeys l) :
    ainsert l k v = l ++ [(k, v)] := by
  induction l with
  | nil => rfl
  | cons e t ih =>
    obtain ⟨k', v'⟩ := e
    have h' : ¬(k = k' ∨ k ∈ akeys t) := by simpa [akeys] using h
    push_neg at h'
    show (if k' = k then (k', v) :: t else (k', v') :: ainsert t k v)
        = (k', v') :: (t ++ [(k, v)])
    rw [if_neg (fun hh => h'.1 hh.symm), ih h'.2]

theorem foldl_ainsert_append {α β : Type} [DecidableEq α] :
    ∀ (opts acc : List (α × β)),
      (akeys acc ++ akeys opts).Nodup →
      opts.foldl (fun a cv => ainsert a cv.1 cv.2) acc = acc ++ opts := by
  intro opts
  induction opts with
  | nil => intro acc _; simp
  | cons cv rest ih =>
    intro acc hnd
    have hmem : cv.1 ∉ akeys acc := by
      rcases (List.nodup_append.mp hnd) with ⟨_, _, hdisj⟩
      exact fun hk => hdisj hk (by simp [akeys])
    rw [List.foldl_cons, ainsert_append acc cv.1 cv.2 hmem]
    have hnd' : (akeys (acc ++ [cv]) ++ akeys rest).Nodup := by
      simp only [akeys, List.map_append, List.map_cons, List.map_nil] at hnd ⊢
      simpa [List.append_assoc] using hnd
    rw [ih (acc ++ [cv]) hnd']
    simp

/-- C7.  A truncated trailing option — its length byte missing, or its
declared length running past the end of the input — stops the option scan
and is discarded, and every previously parsed option is retained: scanning
a well-formed encoded prefix followed by such a truncated tail yields
exactly the prefix's options. -/
theorem parse_options_truncated_tail
    (opts : List (Nat × List Nat)) (t : List Nat)
    (hwf : ∀ cv ∈ opts, cv.1 ≠ 0 ∧ cv.1 ≠ 255 ∧ cv.2.length ≤ 255)
    (hnd : (akeys opts).Nodup)
    (htrunc : (∃ c, t = [c] ∧ c ≠ 0 ∧ c ≠ 255) ∨
      (∃ c len rest, t = c :: len :: rest ∧ c ≠ 0 ∧ c ≠ 255 ∧ rest.length < len)) :
    parse_options (optionsWire opts ++ t) = opts := by
  unfold parse_options
  rw [parseOptionsGo_wire opts t [] ((optionsWire opts ++ t).length)
    (fun cv hcv => ⟨(hwf cv hcv).1, (hwf cv hcv).2.1⟩) (le_refl _)]
  rw [parseOptionsGo_truncated _ _ _ htrunc]
  simpa using foldl_ainsert_append opts [] (by simpa [akeys] using hnd)

/-- C7 witness: one complete option (code 1, four value bytes) followed by
option 50 declaring four bytes but providing two. -/
theorem parse_options_truncated_tail_witness :
    ((∀ cv ∈ [((1 : Nat), [255, 255, 255, 0])], cv.1 ≠ 0 ∧ cv.1 ≠ 255 ∧ cv.2.length ≤ 255) ∧
      (akeys [((1 : Nat), [255, 255, 255, 0])]).Nodup) ∧
    parse_options (optionsWire [((1 : Nat), [255, 255, 255, 0])] ++ [50, 4, 1, 2])
      = [(1, [255, 255, 255, 0])] ∧
    parse_options [1, 4, 255, 255, 255, 0, 50, 4, 1, 2] = [(1, [255, 255, 255, 0])] :=
  ⟨⟨by decide, by decide⟩,
   parse_options_truncated_tail [(1, [255, 255, 255, 0])] [50, 4, 1, 2]
     (by decide) (by decide)
     (Or.inr ⟨50, 4, [1, 2], rfl, by decide, by decide, by decide⟩),
   by decide⟩

set_option maxRecDepth 100000 in
/-- C10.  `get_message_type` returns `None` when option 53 is absent — and
the dispatcher then ignores the packet — and the first value byte when it
is present with a non-empty value; a parseable wire packet carrying option
53 with declared length zero makes the `[0]` index access fail, which the
dispatcher surfaces as an escaping exception. -/
theorem get_message_type_spec :
    (∀ p : DHCPPacket, alookup p.options 53 = none →
        p.get_message_type = Except.ok none) ∧
    (∀ (p : DHCPPacket) (b : Nat) (rest : List Nat),
        alookup p.options 53 = some (b :: rest) →
        p.get_message_type = Except.ok (some b)) ∧
    (∀ p : DHCPPacket, alookup p.options 53 = some [] →
        p.get_message_type = Except.error ()) ∧
    (∀ (data : List Nat) (p : DHCPPacket), DHCPPacket.parse data = some p →
        p.get_message_type = Except.ok none →
        handle_request_route data = RouteOutcome.noMessageType) ∧
    ((DHCPPacket.parse wire53Empty).map DHCPPacket.options = some [(53, [])] ∧
      handle_request_route wire53Empty = RouteOutcome.crash) := by
  refine ⟨?_, ?_, ?_, ?_, by decide, by decide⟩
  · intro p h
    unfold DHCPPacket.get_message_type
    rw [h]
  · intro p b rest h
    unfold DHCPPacket.get_message_type
    rw [h]
  · intro p h
    unfold DHCPPacket.get_message_type
    rw [h]
  · intro data p hp hmt
    unfold handle_request_route
    rw [hp]
    simp [hmt]

set_option maxRecDepth 100000 in
/-- C10 witness: a packet with no option 53, one with `53 ↦ [1]`, and the
zero-length wire packet. -/
theorem get_message_type_spec_witness :
    (alookup (DHCPPacket.init).options 53 = none ∧
      DHCPPacket.init.get_message_type = Except.ok none) ∧
    (alookup pktDiscover.options 53 = some [1] ∧
      pktDiscover.get_message_type = Except.ok (some 1)) ∧
    handle_request_route wire53Empty = RouteOutcome.crash :=
  ⟨⟨by decide, get_message_type_spec.1 DHCPPacket.init (by decide)⟩,
   ⟨by decide, get_message_type_spec.2.1 pktDiscover 1 [] (by decide)⟩,
   get_message_type_spec.2.2.2.2.2⟩

/-- C6.  `parse` fails exactly on inputs shorter than 236 bytes; on any
longer input it succeeds with every header field decoded at its fixed
RFC 2131 offset, and when the four post-header bytes are absent or are not
the magic cookie the options map is empty while the header stands. -/
theorem parse_total_spec (data : List Nat) :
    (DHCPPacket.parse data = none ↔ data.length < 236) ∧
    (∀ p, DHCPPacket.parse data = some p →
        (p.op = fromBytesBE (pySlice data 0 1) ∧
         p.htype = fromBytesBE (pySlice data 1 1) ∧
         p.hlen = fromBytesBE (pySlice data 2 1) ∧
         p.hops = fromBytesBE (pySlice data 3 1) ∧
         p.xid = fromBytesBE (pySlice data 4 4) ∧
         p.secs = fromBytesBE (pySlice data 8 2) ∧
         p.flags = fromBytesBE (pySlice data 10 2) ∧
         p.ciaddr = fromBytesBE (pySlice data 12 4) ∧
         p.yiaddr = fromBytesBE (pySlice data 16 4) ∧
         p.siaddr = fromBytesBE (pySlice data 20 4) ∧
         p.giaddr = fromBytesBE (pySlice data 24 4) ∧
         p.chaddr = (pySlice data 28 16).take p.hlen ∧
         p.sname = pySlice data 44 64 ∧
         p.file = pySlice data 108 128) ∧
        ((data.length < 240 ∨ (data.drop 236).take 4 ≠ MAGIC_COOKIE) →
          p.options = [])) := by
  by_cases hshort : data.length < 236
  · constructor
    · simp [DHCPPacket.parse, hshort]
    · intro p hp
      rw [DHCPPacket.parse, if_pos hshort] at hp
      exact absurd hp (by simp)
  · constructor
    · simp [DHCPPacket.parse, hshort]
    · intro p hp
      rw [DHCPPacket.parse, if_neg hshort] at hp
      have hp' := (Option.some_inj.mp hp).symm
      subst hp'
      refine ⟨⟨rfl, rfl, rfl, rfl, rfl, rfl, rfl, rfl, rfl, rfl, rfl, rfl, rfl, rfl⟩, ?_⟩
      rintro (h240 | hcookie)
      · by_cases h236 : 236 < data.length
        · have h4 : ¬(4 ≤ (data.drop 236).length) := by
            rw [List.length_drop]; omega
          simp only [h236, if_true, if_neg h4]
        · simp [h236]
      · by_cases h236 : 236 < data.length
        · by_cases h4 : 4 ≤ (data.drop 236).length
          · simp [h236, h4, hcookie]
          · simp only [h236, if_true, if_neg h4]
        · simp [h236]

set_option maxRecDepth 100000 in
/-- C6 witness: a 235-byte input is rejected; a 240-byte input with a wrong
cookie parses with an empty options map. -/
theorem parse_total_spec_witness :
    DHCPPacket.parse (List.replicate 235 0) = none ∧
    (DHCPPacket.parse wireBadCookie).map DHCPPacket.options = some [] := by
  constructor
  · exact (parse_total_spec (List.replicate 235 0)).1.mpr (by decide)
  · cases hp : DHCPPacket.parse wireBadCookie with
    | none =>
      have hlt := (parse_total_spec wireBadCookie).1.mp hp
      exact absurd hlt (by decide)
    | some p =>
      have hopts := ((parse_total_spec wireBadCookie).2 p hp).2 (Or.inr (by decide))
      simp [hopts]

theorem drop_append_skip {x rest : List Nat} {off : Nat} (h : x.length ≤ off) :
    (x ++ rest).drop off = rest.drop (off - x.length) := by
  rw [List.drop_append_eq_append_drop, List.drop_eq_nil_of_le h, List.nil_append]

theorem pySlice_skip_toBytes (w' n : Nat) (rest : List Nat) (off w : Nat)
    (h : w' ≤ off) :
    pySlice (toBytesBE w' n ++ rest) off w = pySlice rest (off - w') w := by
  rw [pySlice_append_skip (by rw [length_toBytesBE]; exact h), length_toBytesBE]

theorem pySlice_here_toBytes (w n : Nat) (rest : List Nat) :
    pySlice (toBytesBE w n ++ rest) 0 w = toBytesBE w n :=
  pySlice_append_exact (length_toBytesBE w n)

theorem pySlice_skip_pad (x : List Nat) (padTo : Nat) (rest : List Nat) (off w : Nat)
    (hx : x.length ≤ padTo) (hoff : padTo ≤ off) :
    pySlice ((x ++ List.replicate (padTo - x.length) 0) ++ rest) off w
      = pySlice rest (off - padTo) w := by
  have hl : (x ++ List.replicate (padTo - x.length) 0).length = padTo := by
    rw [List.length_append, List.length_replicate]; omega
  rw [pySlice_append_skip (by rw [hl]; exact hoff), hl]

theorem pySlice_here_pad (x : List Nat) (padTo : Nat) (rest : List Nat)
    (hx : x.length ≤ padTo) :
    pySlice ((x ++ List.replicate (padTo - x.length) 0) ++ rest) 0 padTo
      = x ++ List.replicate (padTo - x.length) 0 := by
  apply pySlice_append_exact
  rw [List.length_append, List.length_replicate]; omega

theorem drop_skip_toBytes (w' n : Nat) (rest : List Nat) (off : Nat) (h : w' ≤ off) :
    (toBytesBE w' n ++ rest).drop off = rest.drop (off - w') := by
  rw [drop_append_skip (by rw [length_toBytesBE]; exact h), length_toBytesBE]

theorem drop_skip_pad (x : List Nat) (padTo : Nat) (rest : List Nat) (off : Nat)
    (hx : x.length ≤ padTo) (hoff : padTo ≤ off) :
    ((x ++ List.replicate (padTo - x.length) 0) ++ rest).drop off
      = rest.drop (off - padTo) := by
  have hl : (x ++ List.replicate (padTo - x.length) 0).length = padTo := by
    rw [List.length_append, List.length_replicate]; omega
  rw [drop_append_skip (by rw [hl]; exact hoff), hl]

theorem fromBytes_toBytes_1 {n : Nat} (h : n < 256) :
    fromBytesBE (toBytesBE 1 n) = n :=
  fromBytesBE_toBytesBE_of_lt (by simpa using h)

theorem fromBytes_toBytes_2 {n : Nat} (h : n < 65536) :
    fromBytesBE (toBytesBE 2 n) = n :=
  fromBytesBE_toBytesBE_of_lt (by simpa using h)

theorem fromBytes_toBytes_4 {n : Nat} (h : n < 4294967296) :
    fromBytesBE (toBytesBE 4 n) = n :=
  fromBytesBE_toBytesBE_of_lt (by simpa using h)

theorem pySlice_skip_pad' (x : List Nat) (padTo : Nat) (rest : List Nat) (off w : Nat)
    (hx : x.length ≤ padTo) (hoff : padTo ≤ off) :
    pySlice (x ++ (List.replicate (padTo - x.length) 0 ++ rest)) off w
      = pySlice rest (off - padTo) w := by
  rw [← List.append_assoc]
  exact pySlice_skip_pad x padTo rest off w hx hoff

theorem pySlice_here_pad' (x : List Nat) (padTo : Nat) (rest : List Nat)
    (hx : x.length ≤ padTo) :
    pySlice (x ++ (List.replicate (padTo - x.length) 0 ++ rest)) 0 padTo
      = x ++ List.replicate (padTo - x.length) 0 := by
  rw [← List.append_assoc]
  exact pySlice_here_pad x padTo rest hx

theorem drop_skip_pad' (x : List Nat) (padTo : Nat) (rest : List Nat) (off : Nat)
    (hx : x.length ≤ padTo) (hoff : padTo ≤ off) :
    (x ++ (List.replicate (padTo - x.length) 0 ++ rest)).drop off
      = rest.drop (off - padTo) := by
  rw [← List.append_assoc]
  exact drop_skip_pad x padTo rest off hx hoff

/-- C2.  Round trip: for every validly constructed message — header fields
within their wire widths, `hlen` equal to the hardware address length and
at most 16, `sname`/`file` within their fixed blocks, option values at most
255 bytes with codes that are neither 0 (pad) nor 255 (end), unique option
codes — `parse (build m)` succeeds and reproduces every header field and
the options map, the only difference being the zero padding of the
fixed-size `sname`/`file` blocks (`chaddr` returns exactly, since `parse`
cuts it back to `hlen` bytes). -/
theorem parse_build_roundtrip (p : DHCPPacket)
    (hop : p.op < 256) (hhtype : p.htype < 256) (hhops : p.hops < 256)
    (hxid : p.xid < 4294967296) (hsecs : p.secs < 65536) (hflags : p.flags < 65536)
    (hci : p.ciaddr < 4294967296) (hyi : p.yiaddr < 4294967296)
    (hsi : p.siaddr < 4294967296) (hgi : p.giaddr < 4294967296)
    (hhlen : p.hlen = p.chaddr.length) (hch : p.chaddr.length ≤ 16)
    (hsn : p.sname.length ≤ 64) (hfl : p.file.length ≤ 128)
    (hopts : ∀ cv ∈ p.options, cv.1 ≠ 0 ∧ cv.1 ≠ 255 ∧ cv.2.length ≤ 255)
    (hnd : (akeys p.options).Nodup) :
    DHCPPacket.parse p.build =
      some { p with
              sname := p.sname ++ List.replicate (64 - p.sname.length) 0
              file := p.file ++ List.replicate (128 - p.file.length) 0 } := by
  have hlenB : (DHCPPacket.build p).length = 241 + (optionsWire p.options).length := by
    simp [DHCPPacket.build, MAGIC_COOKIE, List.length_append, length_toBytesBE,
      List.length_replicate]
    omega
  have hnotshort : ¬(DHCPPacket.build p).length < 236 := by omega
  have hl256 : p.hlen < 256 := by omega
  have s0 : pySlice (DHCPPacket.build p) 0 1 = toBytesBE 1 p.op := by
    simp [DHCPPacket.build, pySlice_here_toBytes]
  have s1 : pySlice (DHCPPacket.build p) 1 1 = toBytesBE 1 p.htype := by
    simp [DHCPPacket.build, pySlice_skip_toBytes, pySlice_here_toBytes]
  have s2 : pySlice (DHCPPacket.build p) 2 1 = toBytesBE 1 p.hlen := by
    simp [DHCPPacket.build, pySlice_skip_toBytes, pySlice_here_toBytes]
  have s3 : pySlice (DHCPPacket.build p) 3 1 = toBytesBE 1 p.hops := by
    simp [DHCPPacket.build, pySlice_skip_toBytes, pySlice_here_toBytes]
  have s4 : pySlice (DHCPPacket.build p) 4 4 = toBytesBE 4 p.xid := by
    simp [DHCPPacket.build, pySlice_skip_toBytes, pySlice_here_toBytes]
  have s8 : pySlice (DHCPPacket.build p) 8 2 = toBytesBE 2 p.secs := by
    simp [DHCPPacket.build, pySlice_skip_toBytes, pySlice_here_toBytes]
  have s10 : pySlice (DHCPPacket.build p) 10 2 = toBytesBE 2 p.flags := by
    simp [DHCPPacket.build, pySlice_skip_toBytes, pySlice_here_toBytes]
  have s12 : pySlice (DHCPPacket.build p) 12 4 = toBytesBE 4 p.ciaddr := by
    simp [DHCPPacket.build, pySlice_skip_toBytes, pySlice_here_toBytes]
  have s16 : pySlice (DHCPPacket.build p) 16 4 = toBytesBE 4 p.yiaddr := by
    simp [DHCPPacket.build, pySlice_skip_toBytes, pySlice_here_toBytes]
  have s20 : pySlice (DHCPPacket.build p) 20 4 = toBytesBE 4 p.siaddr := by
    simp [DHCPPacket.build, pySlice_skip_toBytes, pySlice_here_toBytes]
  have s24 : pySlice (DHCPPacket.build p) 24 4 = toBytesBE 4 p.giaddr := by
    simp [DHCPPacket.build, pySlice_skip_toBytes, pySlice_here_toBytes]
  have s28 : pySlice (DHCPPacket.build p) 28 16
      = p.chaddr ++ List.replicate (16 - p.chaddr.length) 0 := by
    simp [DHCPPacket.build, pySlice_skip_toBytes, pySlice_here_pad', hch]
  have s44 : pySlice (DHCPPacket.build p) 44 64
      = p.sname ++ List.replicate (64 - p.sname.length) 0 := by
    simp [DHCPPacket.build, pySlice_skip_toBytes, pySlice_skip_pad', pySlice_here_pad',
      hch, hsn]
  have s108 : pySlice (DHCPPacket.build p) 108 128
      = p.file ++ List.replicate (128 - p.file.length) 0 := by
    simp [DHCPPacket.build, pySlice_skip_toBytes, pySlice_skip_pad', pySlice_here_pad',
      hch, hsn, hfl]
  have hdrop236 : (DHCPPacket.build p).drop 236
      = MAGIC_COOKIE ++ (optionsWire p.options ++ [255]) := by
    simp [DHCPPacket.build, drop_skip_toBytes, drop_skip_pad', hch, hsn, hfl]
  have h255go : ∀ acc : List (Nat × List Nat),
      parseOptionsGo ([255] : List Nat).length [255] acc = acc := fun acc => rfl
  have hopteq : parse_options (optionsWire p.options ++ [255]) = p.options := by
    unfold parse_options
    have hw := parseOptionsGo_wire p.options [255] []
      ((optionsWire p.options ++ [255]).length)
      (fun cv hcv => ⟨(hopts cv hcv).1, (hopts cv hcv).2.1⟩) (le_refl _)
    rw [hw, h255go]
    simpa using foldl_ainsert_append p.options [] (by simpa [akeys] using hnd)
  simp only [DHCPPacket.parse]
  rw [if_neg hnotshort]
  simp only [Option.some.injEq, DHCPPacket.mk.injEq]
  refine ⟨?_, ?_, ?_, ?_, ?_, ?_, ?_, ?_, ?_, ?_, ?_, ?_, ?_, ?_, ?_⟩
  · rw [s0]; exact fromBytes_toBytes_1 hop
  · rw [s1]; exact fromBytes_toBytes_1 hhtype
  · rw [s2]; exact fromBytes_toBytes_1 hl256
  · rw [s3]; exact fromBytes_toBytes_1 hhops
  · rw [s4]; exact fromBytes_toBytes_4 hxid
  · rw [s8]; exact fromBytes_toBytes_2 hsecs
  · rw [s10]; exact fromBytes_toBytes_2 hflags
  · rw [s12]; exact fromBytes_toBytes_4 hci
  · rw [s16]; exact fromBytes_toBytes_4 hyi
  · rw [s20]; exact fromBytes_toBytes_4 hsi
  · rw [s24]; exact fromBytes_toBytes_4 hgi
  · rw [s2, fromBytes_toBytes_1 hl256, s28, hhlen]
    exact List.take_left _ _
  · exact s44
  · exact s108
  · rw [if_pos (show 236 < (DHCPPacket.build p).length by omega), hdrop236]
    have hm4 : 4 ≤ (MAGIC_COOKIE ++ (optionsWire p.options ++ [255])).length := by
      simp [MAGIC_COOKIE]
    rw [if_pos hm4]
    have htake : (MAGIC_COOKIE ++ (optionsWire p.options ++ [255])).take 4
        = MAGIC_COOKIE := List.take_left' rfl
    rw [if_pos htake]
    have hdrop4 : (MAGIC_COOKIE ++ (optionsWire p.options ++ [255])).drop 4
        = optionsWire p.options ++ [255] := List.drop_left' rfl
    rw [hdrop4, hopteq]

set_option maxRecDepth 1000000 in
/-- C2 witness: a fully populated concrete message with three options. -/
theorem parse_build_roundtrip_witness :
    (pktRound.hlen = pktRound.chaddr.length ∧ (akeys pktRound.options).Nodup) ∧
    DHCPPacket.parse pktRound.build =
      some { pktRound with
              sname := pktRound.sname ++ List.replicate (64 - pktRound.sname.length) 0
              file := pktRound.file ++ List.replicate (128 - pktRound.file.length) 0 } :=
  ⟨⟨by decide, by decide⟩,
   parse_build_roundtrip pktRound (by decide) (by decide) (by decide) (by decide)
     (by decide) (by decide) (by decide) (by decide) (by decide) (by decide)
     (by decide) (by decide) (by decide) (by decide) (by decide) (by decide)⟩

/-- C3 counterexample: a REQUEST whose option 50 carries five bytes
(numeric reading 100) from a MAC tracked at exactly 100.  The claim
predicts an ACK and a lease — and at minimum predicts that every inbound
REQUEST ends in an ACK or a logged warning — but `inet_ntoa` raises
`OSError` while extracting the requested IP, so the handler aborts before
the lookup: no ACK, no warning, no lease. -/
theorem handle_request_malformed_option50 :
    alookup pktRequestBad.options 50 = some [0, 0, 0, 0, 100] ∧
    IPManager.get_ip mgrTracking pktRequestBad.get_client_mac = some 100 ∧
    pktRequestBad.get_requested_ip = Except.error () ∧
    handle_request_packet cfg0 mgrTracking lmDemo 0 pktRequestBad
      = RequestOutcome.crash lmDemo := by
  decide

/-- C3 (amended).  For every inbound REQUEST whose option 50, when
present, carries exactly four bytes, `handle_request_packet` takes the
requested IP from option 50, falling back to the `ciaddr` header field
when the option is absent; when `IPManager.get_ip` tracks exactly that IP
for the client MAC it creates a lease through `create_lease` and sends an
ACK — whose option set equals the OFFER's with the message-type value
replaced by ACK (5) — and when the tracked IP is absent or different it
only logs a warning and sends nothing (no NAK), leaving the lease store
untouched.  A REQUEST whose option-50 value has any other length makes
`inet_ntoa` raise before the lookup: no reply and no lease. -/
theorem handle_request_packet_spec (cfg : ServerConfig) (m : IPManager)
    (lm : LeaseManager) (now : Int) (pkt : DHCPPacket) :
    (alookup pkt.options 50 = none → pkt.get_requested_ip = Except.ok none) ∧
    (∀ v, alookup pkt.options 50 = some v → v.length = 4 →
      pkt.get_requested_ip = Except.ok (some (fromBytesBE v))) ∧
    (∀ v, alookup pkt.options 50 = some v → v.length ≠ 4 →
      pkt.get_requested_ip = Except.error () ∧
      handle_request_packet cfg m lm now pkt = RequestOutcome.crash lm) ∧
    (∀ ro ip, pkt.get_requested_ip = Except.ok ro →
        m.get_ip pkt.get_client_mac = some ip →
        ip = ro.getD pkt.ciaddr →
        handle_request_packet cfg m lm now pkt =
          RequestOutcome.ackReply (build_ack cfg pkt ip)
            (lm.create_lease pkt.get_client_mac ip (some cfg.lease_time) now)) ∧
    (∀ ro, pkt.get_requested_ip = Except.ok ro →
        m.get_ip pkt.get_client_mac = none →
        handle_request_packet cfg m lm now pkt = RequestOutcome.warnNoReply lm) ∧
    (∀ ro ip, pkt.get_requested_ip = Except.ok ro →
        m.get_ip pkt.get_client_mac = some ip →
        ip ≠ ro.getD pkt.ciaddr →
        handle_request_packet cfg m lm now pkt = RequestOutcome.warnNoReply lm) ∧
    (∀ ip : Nat, (build_ack cfg pkt ip).options
        = ainsert (build_offer cfg pkt ip).options 53 [5] ∧
      alookup (build_ack cfg pkt ip).options 53 = some [5] ∧
      alookup (build_offer cfg pkt ip).options 53 = some [2]) := by
  refine ⟨?_, ?_, ?_, ?_, ?_, ?_, ?_⟩
  · intro h
    simp [DHCPPacket.get_requested_ip, h]
  · intro v h hlen
    simp [DHCPPacket.get_requested_ip, h, hlen]
  · intro v h hlen
    have herr : pkt.get_requested_ip = Except.error () := by
      simp [DHCPPacket.get_requested_ip, h, hlen]
    refine ⟨herr, ?_⟩
    unfold handle_request_packet
    simp only [herr]
  · intro ro ip hro hip heq
    unfold handle_request_packet
    simp only [hro, hip]
    rw [if_pos heq]
  · intro ro hro hip
    unfold handle_request_packet
    simp only [hro, hip]
  · intro ro ip hro hip hne
    unfold handle_request_packet
    simp only [hro, hip]
    rw [if_neg hne]
  · intro ip
    exact ⟨rfl, rfl, rfl⟩

set_option maxRecDepth 1000000 in
/-- C3 witness: a REQUEST carrying a four-byte option 50 for address 100
from a MAC tracked at 100 yields the ACK and the lease. -/
theorem handle_request_packet_spec_witness :
    (pktRequest.get_requested_ip = Except.ok (some 100) ∧
      IPManager.get_ip mgrTracking pktRequest.get_client_mac = some 100 ∧
      (100 : Nat) = (some (100 : Nat)).getD pktRequest.ciaddr) ∧
    handle_request_packet cfg0 mgrTracking lmDemo 0 pktRequest =
      RequestOutcome.ackReply (build_ack cfg0 pktRequest 100)
        (lmDemo.create_lease pktRequest.get_client_mac 100 (some cfg0.lease_time) 0) :=
  ⟨⟨by decide, by decide, by decide⟩,
   (handle_request_packet_spec cfg0 mgrTracking lmDemo 0 pktRequest).2.2.2.1
     (some 100) 100 (by decide) (by decide) (by decide)⟩

/-- C1.  The DISCOVER path reads the client MAC and the requested-IP
option and calls `IPManager.allocate_ip` with them, but the handler's
emptiness test `if not allocated_ip` inspects the `(ip, subnet)` 2-tuple
the new manager returns, and a 2-tuple is always truthy: whenever the
requested-IP extraction does not itself raise, the handler builds and
sends an OFFER whose `yiaddr` field receives that tuple — even on pool
exhaustion, where the tuple is `(None, None)` — so the specified silent
drop never happens and `yiaddr` is never the bare allocated address.
(A malformed option 50 instead raises in `inet_ntoa` before `allocate_ip`
is reached, again producing neither a drop decision nor a reply.) -/
theorem handle_discover_always_offers :
    (∀ (cfg : ServerConfig) (m : IPManager) (pkt : DHCPPacket),
        (handle_discover cfg m pkt).1 =
          match pkt.get_requested_ip with
          | Except.error _ => DiscoverOutcome.crash
          | Except.ok ro =>
            DiscoverOutcome.offerReply
              (build_offer cfg pkt (m.allocate_ip pkt.get_client_mac ro none).1)) ∧
    (handle_discover cfg0 exhaustedMgr pktDiscover).1 =
      DiscoverOutcome.offerReply
        (build_offer cfg0 pktDiscover ((none, none) : Option Nat × Option Subnet)) := by
  constructor
  · intro cfg m pkt
    cases hro : pkt.get_requested_ip with
    | error e => cases e; simp [handle_discover, hro]
    | ok ro => simp [handle_discover, hro, pyTruthyPair]
  · decide
